import Mathlib

/-!
Verification of the FEO runtime core (qorix-group/inc_feo).

This file shallowly embeds the parts of the repository that the checked
properties talk about:

* the signalling PDU codec (`feo/src/signalling/inter_proc_socket.rs`,
  `feo/src/signalling/signals.rs`),
* the time base scaling (`feo/src/timestamp.rs`, `feo-time/src/lib.rs`),
* the primary-agent scheduler loop (`feo/src/agent/primary.rs`), and
* the worker trigger loop (`feo/src/worker_pool/worker.rs`).

Machine integers are modelled as `Nat` (all encoded values are checked or
asserted to fit `u64` in the source); byte buffers are `List Nat`; fallible
Rust code returns the explicit result types below, with a dedicated
constructor for `assert!`/`unwrap` panics where the source can abort.
-/

namespace Feo

/-- Activity identifier: `ActivityId(usize)` from `feo/src/activity.rs`. -/
abbrev ActivityId := Nat

/-- Agent identifier: `AgentId(usize)` from `feo/src/signalling/signals.rs`. -/
abbrev AgentId := Nat

/-- The `Signal` enum from `feo/src/signalling/signals.rs` (same declaration
order).  `SyncInfo` and `Timestamp` carry nanoseconds as `Nat`. -/
inductive Signal where
  | helloReady (id : AgentId)
  | helloTrigger (id : AgentId)
  | startupSync (info : Nat)
  | taskChainStart (t : Nat)
  | taskChainEnd (t : Nat)
  | startup (id : ActivityId) (t : Nat)
  | shutdown (id : ActivityId) (t : Nat)
  | step (id : ActivityId) (t : Nat)
  | ready (id : ActivityId) (t : Nat)
  | recorderReady (id : AgentId) (t : Nat)
  deriving DecidableEq, Repr

/-- The `SignalTag` enum from `feo/src/signalling/inter_proc_socket.rs`,
in its declaration order (`#[repr(u8)]`, implicit discriminants 0..9).
Note the source declares `Shutdown` before `Step`. -/
inductive SignalTag where
  | helloTrigger
  | helloReady
  | startupSync
  | taskChainStart
  | taskChainEnd
  | startup
  | shutdown
  | step
  | ready
  | recorderReady
  deriving DecidableEq, Repr

/-- The `repr(u8)` discriminant of a `SignalTag` (`tag as u8` in the source). -/
def SignalTag.toByte : SignalTag → Nat
  | .helloTrigger => 0
  | .helloReady => 1
  | .startupSync => 2
  | .taskChainStart => 3
  | .taskChainEnd => 4
  | .startup => 5
  | .shutdown => 6
  | .step => 7
  | .ready => 8
  | .recorderReady => 9

/-- `impl TryFrom<u8> for SignalTag`: the byte is compared against each
variant discriminant; anything else is an `InvalidData` error (`none`). -/
def SignalTag.tryFromByte (v : Nat) : Option SignalTag :=
  if v = 0 then some .helloTrigger
  else if v = 1 then some .helloReady
  else if v = 2 then some .startupSync
  else if v = 3 then some .taskChainStart
  else if v = 4 then some .taskChainEnd
  else if v = 5 then some .startup
  else if v = 6 then some .shutdown
  else if v = 7 then some .step
  else if v = 8 then some .ready
  else if v = 9 then some .recorderReady
  else none

/-- Big-endian bytes of a 64-bit value (`u64::to_be_bytes` /
`usize::to_be_bytes` on the 64-bit targets the crate supports). -/
def beBytes8 (n : Nat) : List Nat :=
  [n / 2 ^ 56 % 256, n / 2 ^ 48 % 256, n / 2 ^ 40 % 256, n / 2 ^ 32 % 256,
   n / 2 ^ 24 % 256, n / 2 ^ 16 % 256, n / 2 ^ 8 % 256, n % 256]

/-- `u64::from_be_bytes` on a byte list (big-endian accumulation). -/
def beVal (bs : List Nat) : Nat :=
  bs.foldl (fun acc b => acc * 256 + b) 0

/-- Zero-pad a byte list to the 16-byte `data` array of a `SignalPdu`
(`SignalPdu::default()` zero-initialises the array; `encode_pdu!` and
`SignalPdu::read` only overwrite the first `data_len` bytes). -/
def padTo16 (bs : List Nat) : List Nat :=
  bs ++ List.replicate (16 - bs.length) 0

/-- The `SignalPdu` struct: tag, declared payload length, and the 16-byte
payload buffer (kept zero-padded to full length). -/
structure SignalPdu where
  tag : SignalTag
  dataLen : Nat
  data : List Nat
  deriving DecidableEq, Repr

/-- Frame bytes written by `SignalPdu::send`: 1 tag byte, 2 length bytes
big-endian, then `data[0..data_len]`. -/
def SignalPdu.frameBytes (p : SignalPdu) : List Nat :=
  p.tag.toByte :: (p.dataLen / 256 % 256) :: (p.dataLen % 256) :: p.data.take p.dataLen

/-- `impl From<&Signal> for SignalPdu` (the `encode_pdu!` macro): each
field is appended as 8 big-endian bytes and `data_len` is the total. -/
def Signal.encode : Signal → SignalPdu
  | .helloTrigger id => ⟨.helloTrigger, 8, padTo16 (beBytes8 id)⟩
  | .helloReady id => ⟨.helloReady, 8, padTo16 (beBytes8 id)⟩
  | .startupSync info => ⟨.startupSync, 8, padTo16 (beBytes8 info)⟩
  | .ready id t => ⟨.ready, 16, padTo16 (beBytes8 id ++ beBytes8 t)⟩
  | .taskChainStart t => ⟨.taskChainStart, 8, padTo16 (beBytes8 t)⟩
  | .taskChainEnd t => ⟨.taskChainEnd, 8, padTo16 (beBytes8 t)⟩
  | .startup id t => ⟨.startup, 16, padTo16 (beBytes8 id ++ beBytes8 t)⟩
  | .step id t => ⟨.step, 16, padTo16 (beBytes8 id ++ beBytes8 t)⟩
  | .shutdown id t => ⟨.shutdown, 16, padTo16 (beBytes8 id ++ beBytes8 t)⟩
  | .recorderReady id t => ⟨.recorderReady, 16, padTo16 (beBytes8 id ++ beBytes8 t)⟩

/-- Result of a fallible codec operation.  `invalidData` is the
`io::ErrorKind::InvalidData` error path; `assertViolation` is a failed
`assert!` inside `decode_pdu_data!` (a process abort, not an `Err`). -/
inductive Res (α : Type) where
  | ok (a : α)
  | invalidData
  | assertViolation
  deriving DecidableEq, Repr

/-- Sequencing of fallible codec steps (`?` in the source). -/
def Res.bind {α β : Type} : Res α → (α → Res β) → Res β
  | .ok a, f => f a
  | .invalidData, _ => .invalidData
  | .assertViolation, _ => .assertViolation

/-- One field read of `decode_pdu_data!`: `assert!(offset + size <= data_len)`
then `from_be_bytes` of `data[offset..offset + size]`. -/
def decodeField (p : SignalPdu) (off size : Nat) : Res Nat :=
  if off + size ≤ p.dataLen then .ok (beVal ((p.data.drop off).take size))
  else .assertViolation

/-- `impl TryFrom<&SignalPdu> for Signal`: payload decoding per tag. -/
def Signal.decode (p : SignalPdu) : Res Signal :=
  match p.tag with
  | .helloTrigger => (decodeField p 0 8).bind fun id => .ok (.helloTrigger id)
  | .helloReady => (decodeField p 0 8).bind fun id => .ok (.helloReady id)
  | .startupSync => (decodeField p 0 8).bind fun info => .ok (.startupSync info)
  | .ready =>
    (decodeField p 0 8).bind fun id =>
      (decodeField p 8 8).bind fun t => .ok (.ready id t)
  | .taskChainStart => (decodeField p 0 8).bind fun t => .ok (.taskChainStart t)
  | .taskChainEnd => (decodeField p 0 8).bind fun t => .ok (.taskChainEnd t)
  | .startup =>
    (decodeField p 0 8).bind fun id =>
      (decodeField p 8 8).bind fun t => .ok (.startup id t)
  | .step =>
    (decodeField p 0 8).bind fun id =>
      (decodeField p 8 8).bind fun t => .ok (.step id t)
  | .shutdown =>
    (decodeField p 0 8).bind fun id =>
      (decodeField p 8 8).bind fun t => .ok (.shutdown id t)
  | .recorderReady =>
    (decodeField p 0 8).bind fun id =>
      (decodeField p 8 8).bind fun t => .ok (.recorderReady id t)

/-- `SignalPdu::read` on a received frame: after the 3-byte header, reject a
declared length above `MAX_PDU_DATA_SIZE` (16) with `InvalidData`, read
`data_len` payload bytes into the zeroed buffer, then convert the tag byte
(unknown tag is `InvalidData`).  The checks happen in exactly this order in
the source. -/
def readPdu (tagByte dataLen : Nat) (payload : List Nat) : Res SignalPdu :=
  if 16 < dataLen then .invalidData
  else
    match SignalTag.tryFromByte tagByte with
    | none => .invalidData
    | some tag => .ok ⟨tag, dataLen, padTo16 (payload.take dataLen)⟩

/-- Receiving pipeline of the primary agent's `IpcSignalReceiver`:
`SignalPdu::read` followed by `Signal::try_from`. -/
def readAndDecode (tagByte dataLen : Nat) (payload : List Nat) : Res Signal :=
  (readPdu tagByte dataLen payload).bind Signal.decode

/-- The tag byte each variant actually gets on the wire, spelled per variant
(the amended tag table: §3 order except that Shutdown = 6 precedes Step = 7,
matching the `SignalTag` declaration order). -/
def wireTag : Signal → Nat
  | .helloTrigger _ => 0
  | .helloReady _ => 1
  | .startupSync _ => 2
  | .taskChainStart _ => 3
  | .taskChainEnd _ => 4
  | .startup _ _ => 5
  | .shutdown _ _ => 6
  | .step _ _ => 7
  | .ready _ _ => 8
  | .recorderReady _ _ => 9

/-- C1 counterexample: the claimed tag table assigns Step = 6 and
Shutdown = 7, but the encoded frame of a `Step` signal starts with byte 7
and that of a `Shutdown` signal with byte 6 (`SignalTag` declares `Shutdown`
before `Step`). -/
theorem c1_step_first_byte_not_six :
    (Signal.encode (Signal.step 0 0)).frameBytes.head? ≠ some 6 ∧
    (Signal.encode (Signal.shutdown 0 0)).frameBytes.head? ≠ some 7 := by
  decide

/-- C1 amended: for every signal, the first byte of its encoded frame is the
wire tag given by the `SignalTag` declaration order, i.e. HelloTrigger = 0,
HelloReady = 1, StartupSync = 2, TaskChainStart = 3, TaskChainEnd = 4,
Startup = 5, Shutdown = 6, Step = 7, Ready = 8, RecorderReady = 9. -/
theorem c1_first_byte_is_wire_tag (s : Signal) :
    (Signal.encode s).frameBytes.head? = some (wireTag s) := by
  cases s <;> rfl

/-- Payload bytes the decoder consumes for a tag: one 8-byte field for the
hello, sync and task-chain variants, two for the id-and-timestamp ones. -/
def SignalTag.payloadSize : SignalTag → Nat
  | .helloTrigger => 8
  | .helloReady => 8
  | .startupSync => 8
  | .taskChainStart => 8
  | .taskChainEnd => 8
  | .startup => 16
  | .shutdown => 16
  | .step => 16
  | .ready => 16
  | .recorderReady => 16

/-- Every numeric field of the signal fits in 64 bits (the source asserts
this in the `From<Timestamp> for u64` conversions and ids are `usize`). -/
def Signal.fits64 : Signal → Bool
  | .helloReady id => decide (id < 2 ^ 64)
  | .helloTrigger id => decide (id < 2 ^ 64)
  | .startupSync info => decide (info < 2 ^ 64)
  | .taskChainStart t => decide (t < 2 ^ 64)
  | .taskChainEnd t => decide (t < 2 ^ 64)
  | .startup id t => decide (id < 2 ^ 64) && decide (t < 2 ^ 64)
  | .shutdown id t => decide (id < 2 ^ 64) && decide (t < 2 ^ 64)
  | .step id t => decide (id < 2 ^ 64) && decide (t < 2 ^ 64)
  | .ready id t => decide (id < 2 ^ 64) && decide (t < 2 ^ 64)
  | .recorderReady id t => decide (id < 2 ^ 64) && decide (t < 2 ^ 64)

theorem beVal_beBytes8 (n : Nat) (h : n < 2 ^ 64) : beVal (beBytes8 n) = n := by
  simp only [beBytes8, beVal, List.foldl]
  norm_num
  omega

theorem length_beBytes8 (n : Nat) : (beBytes8 n).length = 8 := rfl

theorem take8_padTo16 (v : Nat) : (padTo16 (beBytes8 v)).take 8 = beBytes8 v := by
  rw [padTo16, show (8 : Nat) = (beBytes8 v).length from rfl, List.take_left]

theorem pad_pair (a b : Nat) :
    padTo16 (beBytes8 a ++ beBytes8 b) = beBytes8 a ++ beBytes8 b := by
  simp [padTo16, length_beBytes8]

theorem decode_one8 (tag : SignalTag) (v : Nat) :
    decodeField ⟨tag, 8, padTo16 (beBytes8 v)⟩ 0 8 = .ok (beVal (beBytes8 v)) := by
  simp [decodeField, take8_padTo16]

theorem decode_pairA (tag : SignalTag) (a b : Nat) :
    decodeField ⟨tag, 16, padTo16 (beBytes8 a ++ beBytes8 b)⟩ 0 8 =
      .ok (beVal (beBytes8 a)) := by
  simp only [decodeField]
  rw [if_pos (by omega)]
  rw [pad_pair, List.drop_zero,
    show (8 : Nat) = (beBytes8 a).length from rfl, List.take_left]

theorem decode_pairB (tag : SignalTag) (a b : Nat) :
    decodeField ⟨tag, 16, padTo16 (beBytes8 a ++ beBytes8 b)⟩ 8 8 =
      .ok (beVal (beBytes8 b)) := by
  simp only [decodeField]
  rw [if_pos (by omega)]
  rw [pad_pair, show (8 : Nat) = (beBytes8 a).length from rfl, List.drop_left]
  rw [show (beBytes8 a).length = (beBytes8 b).length from rfl, List.take_length]

theorem encode_decode (s : Signal) (h : s.fits64 = true) :
    Signal.decode (Signal.encode s) = .ok s := by
  cases s <;>
    simp_all only [Signal.fits64, Bool.and_eq_true, decide_eq_true_eq,
      Signal.encode, Signal.decode, decode_one8, decode_pairA, decode_pairB,
      Res.bind] <;>
    simp_all [beVal_beBytes8]

/-- C2: for every signal whose ids and nanosecond values fit in 64 bits,
decoding the PDU produced by encoding it yields the same signal back, and
encoding is injective on that domain. -/
theorem c2_encode_decode_roundtrip (s : Signal) (h : s.fits64 = true) :
    Signal.decode (Signal.encode s) = .ok s ∧
    ∀ s2, s2.fits64 = true → Signal.encode s = Signal.encode s2 → s = s2 := by
  refine ⟨encode_decode s h, fun s2 h2 he => ?_⟩
  have r1 := encode_decode s h
  have r2 := encode_decode s2 h2
  rw [he, r2] at r1
  cases r1
  rfl

/-- C2 witness: the round trip evaluated on `Ready(1, 2)`. -/
theorem c2_witness :
    Signal.fits64 (Signal.ready 1 2) = true ∧
    Signal.decode (Signal.encode (Signal.ready 1 2)) = .ok (Signal.ready 1 2) :=
  ⟨by decide, (c2_encode_decode_roundtrip (Signal.ready 1 2) (by decide)).1⟩

theorem decode_ok_of_size (p : SignalPdu) (h : p.tag.payloadSize ≤ p.dataLen) :
    ∃ s, Signal.decode p = Res.ok s := by
  obtain ⟨tag, len, data⟩ := p
  cases tag <;>
    simp only [Signal.decode, decodeField, SignalTag.payloadSize] at h ⊢ <;>
    rw [if_pos (by omega)] <;>
    simp only [Res.bind] <;>
    first
      | exact ⟨_, rfl⟩
      | (rw [if_pos (by omega)]; simp only [Res.bind]; exact ⟨_, rfl⟩)

/-- C7 counterexample: the frame with tag byte 8 (`Ready`) and declared
length 0 passes both checks (known tag, length within the 16-byte maximum)
but does not decode to a signal: `decode_pdu_data!` hits a failed `assert!`
(a panic), because the declared length does not cover the payload the tag
requires. -/
theorem c7_short_ready_frame_asserts :
    (SignalTag.tryFromByte 8).isSome = true ∧
    readPdu 8 0 [] = .ok ⟨.ready, 0, padTo16 []⟩ ∧
    Signal.decode ⟨.ready, 0, padTo16 []⟩ = .assertViolation := by
  decide

/-- C7 amended: reading a frame fails with `InvalidData` when the declared
length exceeds 16 or (length in range) the tag byte is unknown; a frame
passing both checks decodes to a signal without error provided its declared
length also covers the payload size of its tag (otherwise decoding aborts on
a failed assertion, per the counterexample). -/
theorem c7_read_decode_errors (tagByte dataLen : Nat) (payload : List Nat) :
    (16 < dataLen → readPdu tagByte dataLen payload = .invalidData) ∧
    (dataLen ≤ 16 → SignalTag.tryFromByte tagByte = none →
      readPdu tagByte dataLen payload = .invalidData) ∧
    (∀ t, dataLen ≤ 16 → SignalTag.tryFromByte tagByte = some t →
      t.payloadSize ≤ dataLen →
      ∃ s, readAndDecode tagByte dataLen payload = Res.ok s) := by
  refine ⟨fun h => ?_, fun h1 h2 => ?_, fun t h1 h2 h3 => ?_⟩
  · simp [readPdu, h]
  · simp [readPdu, Nat.not_lt.mpr h1, h2]
  · unfold readAndDecode readPdu
    rw [if_neg (Nat.not_lt.mpr h1), h2]
    exact decode_ok_of_size ⟨t, dataLen, padTo16 (payload.take dataLen)⟩ h3

/-- C7 witness: a `TaskChainStart` frame of declared length 8 decodes, a
frame with unknown tag 10 and one with declared length 17 are rejected. -/
theorem c7_witness :
    (16 < 17 → readPdu 3 17 [] = .invalidData) ∧
    (10 ≤ 16 → SignalTag.tryFromByte 10 = none → readPdu 10 10 [] = .invalidData) ∧
    (∃ s, readAndDecode 3 8 (beBytes8 5) = Res.ok s) :=
  ⟨(c7_read_decode_errors 3 17 []).1,
   fun _ h => (c7_read_decode_errors 10 10 []).2.1 (by decide) h,
   (c7_read_decode_errors 3 8 (beBytes8 5)).2.2 .taskChainStart (by decide)
     (by decide) (by decide)⟩

/-- Scaling of a `Duration` (in nanoseconds) by the process-wide speed
factor: `impl Scaled for Duration` in `feo-time/src/lib.rs`.  A positive
factor divides, a negative factor multiplies by its absolute value.  (The
trait is documented as converting a logical duration into the unscaled OS
duration that sleep functions need.) -/
def durationScaled (factor : Int) (d : Nat) : Nat :=
  if factor ≠ 0 then
    if 0 < factor then d / factor.natAbs else d * factor.natAbs
  else d

/-- `timestamp()` from `feo/src/timestamp.rs`: the unscaled monotonic
duration since `startup_instant()` (in nanoseconds), passed through
`Duration::scaled`. -/
def timestampNs (factor : Int) (realElapsed : Nat) : Nat :=
  durationScaled factor realElapsed

/-- Elapsed scaled time reported by `feo_time::Instant::now()` relative to
the scaling start instant, for a real elapsed duration (nanoseconds): a
positive factor multiplies, a negative factor divides. -/
def instantNowElapsed (factor : Int) (realElapsed : Nat) : Nat :=
  if factor ≠ 0 then
    if 0 < factor then realElapsed * factor.natAbs else realElapsed / factor.natAbs
  else realElapsed

/-- C3: with speed factor 2 and 10 ns of real elapsed time, `timestamp()`
returns 5 ns — it divides by a positive factor (via `Duration::scaled`,
whose contract is the logical-to-OS sleep conversion) — while the claim,
and `feo_time::Instant::now()` itself, scale by multiplication and give
20 ns.  With factor −2 the roles swap (20 ns instead of 5 ns). -/
theorem c3_timestamp_inverts_scaling :
    timestampNs 2 10 = 5 ∧ instantNowElapsed 2 10 = 20 ∧
    timestampNs (-2) 10 = 20 ∧ instantNowElapsed (-2) 10 = 5 ∧
    timestampNs 0 10 = 10 := by
  decide

/-- Per-activity scheduler state, `ActivityState` in `feo/src/agent/primary.rs`. -/
structure ActState where
  triggered : Bool
  ready : Bool
  deriving DecidableEq, Repr

/-- The scheduler's `activity_states` map, as an association list in the
map's (unspecified) iteration order.  Keys are unique in the real `HashMap`;
theorems that need this carry a `Nodup` hypothesis. -/
abbrev ActStates := List (ActivityId × ActState)

/-- `HashMap::get` on an association list. -/
def alookup {α : Type} (l : List (Nat × α)) (k : Nat) : Option α :=
  (l.find? (fun p => p.1 == k)).map (fun p => p.2)

/-- The dependency check in `Scheduler::step_foreach_ready`: iterate the
state map, keep the entries named by the dependency list, and require all of
them ready.  Dependency ids that are not keys of the state map are never
consulted. -/
def depsFulfilled (states : ActStates) (deps : List ActivityId) : Bool :=
  (states.filter (fun p => deps.contains p.1)).all (fun p => p.2.ready)

/-- Set the `triggered` flag of the entry with the given key
(`activity_states.get_mut(act_id).unwrap().triggered = true`; the key is
always present because state and dependency maps share their key set). -/
def setTriggered (states : ActStates) (id : ActivityId) : ActStates :=
  states.map (fun p => if p.1 == id then (p.1, { p.2 with triggered := true }) else p)

/-- Set the `ready` flag of the entry with the given key
(`activity_states.get_mut(&act_id).unwrap().ready = true`). -/
def setReady (states : ActStates) (id : ActivityId) : ActStates :=
  states.map (fun p => if p.1 == id then (p.1, { p.2 with ready := true }) else p)

/-- The per-cycle reset: both flags of every activity to false. -/
def resetStates (states : ActStates) : ActStates :=
  states.map (fun p => (p.1, ⟨false, false⟩))

/-- `Scheduler::is_all_ready`. -/
def isAllReady (states : ActStates) : Bool :=
  states.all (fun p => p.2.ready)

/-- `Scheduler::step_foreach_ready`: one dispatch pass over the dependency
map in its iteration order `depOrder`.  Returns the activity ids stepped, in
emission order, and the updated state map.  (`activity_states[act_id]`
panics on a missing key in the source; the `getD` default is never consulted
when state and dependency maps share their key set.) -/
def stepForeachReady (depOrder : List (ActivityId × List ActivityId))
    (states : ActStates) : List ActivityId × ActStates :=
  match depOrder with
  | [] => ([], states)
  | (a, deps) :: rest =>
    if ((alookup states a).getD ⟨false, false⟩).triggered then
      stepForeachReady rest states
    else if depsFulfilled states deps then
      let res := stepForeachReady rest (setTriggered states a)
      (a :: res.1, res.2)
    else stepForeachReady rest states

theorem alookup_some {α : Type} {l : List (Nat × α)} {k : Nat} {v : α}
    (h : alookup l k = some v) : (k, v) ∈ l := by
  unfold alookup at h
  cases hf : l.find? (fun q => q.1 == k) with
  | none => rw [hf] at h; cases h
  | some q =>
    obtain ⟨qk, qv⟩ := q
    rw [hf] at h
    have hq : qk = k := by simpa using List.find?_some hf
    have hv : qv = v := by simpa using h
    rw [← hq, ← hv]
    exact List.mem_of_find?_eq_some hf

theorem alookup_none_iff {α : Type} (l : List (Nat × α)) (k : Nat) :
    alookup l k = none ↔ k ∉ l.map Prod.fst := by
  unfold alookup
  rw [Option.map_eq_none', List.find?_eq_none]
  constructor
  · rintro h hk
    obtain ⟨p, hp, hk2⟩ := List.mem_map.mp hk
    exact h p hp (by simpa using hk2)
  · intro h p hp hk
    exact h (List.mem_map.mpr ⟨p, hp, by simpa using hk⟩)

theorem alookup_none_key {α : Type} {l : List (Nat × α)} {k : Nat}
    (h : alookup l k = none) : ∀ p ∈ l, p.1 ≠ k := by
  intro p hp hk
  exact (alookup_none_iff l k).mp h (List.mem_map.mpr ⟨p, hp, hk⟩)

theorem keys_setTriggered (states : ActStates) (id : ActivityId) :
    (setTriggered states id).map Prod.fst = states.map Prod.fst := by
  unfold setTriggered
  rw [List.map_map]
  apply List.map_congr_left
  intro p _
  show (if p.1 == id then (p.1, { p.2 with triggered := true }) else p).1 = p.1
  split <;> rfl

theorem keys_setReady (states : ActStates) (id : ActivityId) :
    (setReady states id).map Prod.fst = states.map Prod.fst := by
  unfold setReady
  rw [List.map_map]
  apply List.map_congr_left
  intro p _
  show (if p.1 == id then (p.1, { p.2 with ready := true }) else p).1 = p.1
  split <;> rfl

theorem keys_resetStates (states : ActStates) :
    (resetStates states).map Prod.fst = states.map Prod.fst := by
  unfold resetStates
  rw [List.map_map]
  rfl

theorem depsFulfilled_nil (s : ActStates) : depsFulfilled s [] = true := by
  simp [depsFulfilled]

theorem depsFulfilled_of_unknown (s : ActStates) (ds : List ActivityId)
    (h : ∀ x ∈ ds, alookup s x = none) : depsFulfilled s ds = true := by
  unfold depsFulfilled
  rw [List.all_eq_true]
  intro p hp
  rw [List.mem_filter] at hp
  have hd : p.1 ∈ ds := by simpa using hp.2
  exact absurd rfl (alookup_none_key (h p.1 hd) p hp.1)

theorem steps_sublist (depOrder : List (ActivityId × List ActivityId))
    (states : ActStates) :
    (stepForeachReady depOrder states).1.Sublist (depOrder.map Prod.fst) := by
  induction depOrder generalizing states with
  | nil => simp [stepForeachReady]
  | cons hd rest ih =>
    obtain ⟨a, deps⟩ := hd
    simp only [stepForeachReady, List.map_cons]
    split
    · exact (ih states).cons a
    · split
      · exact (ih (setTriggered states a)).cons₂ a
      · exact (ih states).cons a

theorem mem_step_out (a : ActivityId) (ds : List ActivityId) :
    ∀ depOrder : List (ActivityId × List ActivityId),
      (depOrder.map Prod.fst).Nodup → (a, ds) ∈ depOrder →
      ∀ states : ActStates,
        (∀ p ∈ states, p.1 = a → p.2.triggered = false) →
        (∀ s : ActStates, s.map Prod.fst = states.map Prod.fst →
          depsFulfilled s ds = true) →
        a ∈ (stepForeachReady depOrder states).1 := by
  intro depOrder
  induction depOrder with
  | nil => intro _ hmem; cases hmem
  | cons hd rest ih =>
    obtain ⟨b, deps⟩ := hd
    intro hnd hmem states huntrig hds
    simp only [List.map_cons, List.nodup_cons] at hnd
    rcases List.mem_cons.mp hmem with heq | hrest
    · injection heq with h1 h2
      subst h1
      subst h2
      have htr : ((alookup states a).getD ⟨false, false⟩).triggered = false := by
        cases halo : alookup states a with
        | none => rfl
        | some st => simpa using huntrig (a, st) (alookup_some halo) rfl
      simp [stepForeachReady, htr, hds states rfl]
    · have hab : a ≠ b := by
        intro h
        exact hnd.1 (List.mem_map.mpr ⟨(a, ds), hrest, h⟩)
      simp only [stepForeachReady]
      split
      · exact ih hnd.2 hrest states huntrig hds
      · split
        · refine List.mem_cons.mpr (Or.inr (ih hnd.2 hrest (setTriggered states b) ?_ ?_))
          · intro p hp hpa
            unfold setTriggered at hp
            obtain ⟨q, hq, rfl⟩ := List.mem_map.mp hp
            by_cases hqb : q.1 == b
            · rw [if_pos hqb] at hpa ⊢
              exact absurd (hpa ▸ (by simpa using hqb)) hab
            · rw [if_neg hqb] at hpa ⊢
              exact huntrig q hq hpa
          · intro s hs
            exact hds s (hs.trans (keys_setTriggered states b))
        · exact ih hnd.2 hrest states huntrig hds

/-- C4 counterexample: a dependency map built by inserting activity 1 and
then activity 2 (both with no dependencies) but iterated by the `HashMap`
in the order 2, 1 — an order the std `HashMap` is free to produce — emits
the Step signals as 2, 1, not in the insertion order 1, 2. -/
theorem c4_iteration_order_counterexample :
    stepForeachReady [(2, []), (1, [])]
      [(1, ActState.mk false false), (2, ActState.mk false false)] =
      ([2, 1], [(1, ActState.mk true false), (2, ActState.mk true false)]) ∧
    [2, 1] ≠ [1, 2] := by
  decide

/-- C4 amended: every dispatch pass — whatever state map `states` it runs
on, so mid-cycle passes included — evaluates the not-yet-triggered
activities in the dependency map's iteration order (an unspecified
permutation of its entries, not necessarily insertion order), so the Step
signals of the activities found unblocked in that pass are emitted as a
subsequence of that iteration order; and regardless of the order, every
activity whose dependency list is empty is stepped in the first pass after
the per-cycle reset. -/
theorem c4_dispatch_order (depOrder : List (ActivityId × List ActivityId))
    (states : ActStates) (states0 : ActStates) (a : ActivityId) :
    (stepForeachReady depOrder states).1.Sublist (depOrder.map Prod.fst) ∧
    ((depOrder.map Prod.fst).Nodup → (a, ([] : List ActivityId)) ∈ depOrder →
      a ∈ (stepForeachReady depOrder (resetStates states0)).1) := by
  refine ⟨steps_sublist _ _, fun hnd hmem => ?_⟩
  apply mem_step_out a [] depOrder hnd hmem (resetStates states0)
  · intro p hp _
    unfold resetStates at hp
    obtain ⟨q, _, rfl⟩ := List.mem_map.mp hp
    rfl
  · intro s _
    exact depsFulfilled_nil s

/-- C4 witness: in a two-entry map iterated as (5, no deps) then (7, dep 9),
activity 5 is stepped in the first pass. -/
theorem c4_witness :
    5 ∈ (stepForeachReady [(5, []), (7, [9])]
      (resetStates [(5, ActState.mk true true), (7, ActState.mk false true)])).1 :=
  (c4_dispatch_order [(5, []), (7, [9])]
    [(5, ActState.mk true false), (7, ActState.mk false true)]
    [(5, ActState.mk true true), (7, ActState.mk false true)] 5).2
    (by decide) (by decide)

theorem depsFulfilled_unknown (states : ActStates) (deps : List ActivityId)
    (d : ActivityId) (h : alookup states d = none) :
    depsFulfilled states (d :: deps) = depsFulfilled states deps := by
  unfold depsFulfilled
  congr 1
  apply List.filter_congr
  intro p hp
  have hpd : p.1 ≠ d := alookup_none_key h p hp
  simp [List.contains_cons, hpd]

/-- C10: the readiness check consults only dependency ids that occur as keys
of the state map — a dependency id with no state entry is silently treated
as satisfied — and consequently an activity all of whose dependencies are
unknown ids is dispatched in the first pass as if they were ready. -/
theorem c10_unknown_deps_satisfied (states : ActStates) (deps : List ActivityId)
    (d : ActivityId) (depOrder : List (ActivityId × List ActivityId))
    (states0 : ActStates) (a : ActivityId) (ds : List ActivityId) :
    (alookup states d = none →
      depsFulfilled states (d :: deps) = depsFulfilled states deps) ∧
    ((depOrder.map Prod.fst).Nodup → (a, ds) ∈ depOrder →
      (∀ x ∈ ds, alookup (resetStates states0) x = none) →
      a ∈ (stepForeachReady depOrder (resetStates states0)).1) := by
  refine ⟨fun h => depsFulfilled_unknown states deps d h, fun hnd hmem hun => ?_⟩
  apply mem_step_out a ds depOrder hnd hmem (resetStates states0)
  · intro p hp _
    unfold resetStates at hp
    obtain ⟨q, _, rfl⟩ := List.mem_map.mp hp
    rfl
  · intro s hs
    apply depsFulfilled_of_unknown
    intro x hx
    rw [alookup_none_iff, hs, ← alookup_none_iff]
    exact hun x hx

/-- C10 witness: activity 4 depends only on id 99, which has no state entry;
the dependency counts as satisfied and 4 is stepped in the first pass. -/
theorem c10_witness :
    (depsFulfilled [(4, ActState.mk false false)] [99] =
      depsFulfilled [(4, ActState.mk false false)] []) ∧
    4 ∈ (stepForeachReady [(4, [99])] (resetStates [(4, ActState.mk false false)])).1 :=
  ⟨(c10_unknown_deps_satisfied [(4, ActState.mk false false)] [] 99 [] [] 0 []).1
      (by decide),
   (c10_unknown_deps_satisfied [] [] 0 [(4, [99])] [(4, ActState.mk false false)] 4
      [99]).2 (by decide) (by decide) (by decide)⟩

/-- The inner loop of one task-chain cycle in `Scheduler::run`:
`while !is_all_ready { step_foreach_ready(); wait_next_ready() }`.
`readies` is the sequence of activity ids delivered by successive
`wait_next_ready` calls (the connector already filters out non-Ready
signals).  Returns the stepped ids in emission order and the final state
map; `none` models blocking forever on an exhausted channel or the
`unwrap` panic on a ready id with no state entry. -/
def cycleLoop (depOrder : List (ActivityId × List ActivityId)) :
    ActStates → List ActivityId → Option (List ActivityId × ActStates)
  | states, [] => if isAllReady states then some ([], states) else none
  | states, r :: rest =>
    if isAllReady states then some ([], states)
    else
      match alookup (stepForeachReady depOrder states).2 r with
      | none => none
      | some _ =>
        match cycleLoop depOrder (setReady (stepForeachReady depOrder states).2 r) rest with
        | none => none
        | some q => some ((stepForeachReady depOrder states).1 ++ q.1, q.2)

/-- Environment assumption under which the cycle runs: every Ready the
scheduler receives names an activity that is known and already triggered at
that point — which is how workers behave, since they only run (and then
acknowledge) activities the scheduler has stepped. -/
def envOk (depOrder : List (ActivityId × List ActivityId)) :
    ActStates → List ActivityId → Bool
  | _, [] => true
  | states, r :: rest =>
    if isAllReady states then true
    else
      match alookup (stepForeachReady depOrder states).2 r with
      | none => false
      | some st =>
        st.triggered && envOk depOrder (setReady (stepForeachReady depOrder states).2 r) rest

/-- Ready implies triggered, for every entry of the state map. -/
def InvRT (states : ActStates) : Prop :=
  ∀ p ∈ states, p.2.ready = true → p.2.triggered = true

theorem inv_setTriggered {states : ActStates} (h : InvRT states) (a : ActivityId) :
    InvRT (setTriggered states a) := by
  intro p hp hr
  unfold setTriggered at hp
  obtain ⟨q, hq, rfl⟩ := List.mem_map.mp hp
  by_cases hqa : q.1 == a
  · rw [if_pos hqa] at hr ⊢
  · rw [if_neg hqa] at hr ⊢
    exact h q hq hr

theorem inv_stepForeachReady (depOrder : List (ActivityId × List ActivityId)) :
    ∀ states : ActStates, InvRT states → InvRT (stepForeachReady depOrder states).2 := by
  induction depOrder with
  | nil => exact fun s h => h
  | cons hd rest ih =>
    obtain ⟨a, deps⟩ := hd
    intro s h
    simp only [stepForeachReady]
    split
    · exact ih s h
    · split
      · exact ih _ (inv_setTriggered h a)
      · exact ih s h

theorem keys_stepForeachReady (depOrder : List (ActivityId × List ActivityId)) :
    ∀ states : ActStates,
      (stepForeachReady depOrder states).2.map Prod.fst = states.map Prod.fst := by
  induction depOrder with
  | nil => exact fun s => rfl
  | cons hd rest ih =>
    obtain ⟨a, deps⟩ := hd
    intro s
    simp only [stepForeachReady]
    split
    · exact ih s
    · split
      · exact (ih (setTriggered s a)).trans (keys_setTriggered s a)
      · exact ih s

theorem alookup_unique {α : Type} {l : List (Nat × α)} {k : Nat} {v : α}
    (hnd : (l.map Prod.fst).Nodup) (hl : alookup l k = some v)
    {q : Nat × α} (hq : q ∈ l) (hk : q.1 = k) : q.2 = v := by
  induction l with
  | nil => cases hq
  | cons hd tl ih =>
    simp only [List.map_cons, List.nodup_cons] at hnd
    rcases List.mem_cons.mp hq with rfl | htl
    · unfold alookup at hl
      rw [List.find?_cons_of_pos _ (by simpa using hk)] at hl
      simpa using hl
    · by_cases hhd : hd.1 = k
      · exact absurd (List.mem_map.mpr ⟨q, htl, hk.trans hhd.symm⟩) hnd.1
      · unfold alookup at hl
        rw [List.find?_cons_of_neg _ (by simpa using hhd)] at hl
        exact ih hnd.2 hl htl

theorem inv_setReady {states : ActStates} {r : ActivityId} {st : ActState}
    (hnd : (states.map Prod.fst).Nodup)
    (hl : alookup states r = some st) (htr : st.triggered = true)
    (h : InvRT states) : InvRT (setReady states r) := by
  intro p hp hr
  unfold setReady at hp
  obtain ⟨q, hq, rfl⟩ := List.mem_map.mp hp
  by_cases hqr : q.1 == r
  · rw [if_pos hqr]
    show q.2.triggered = true
    rw [alookup_unique hnd hl hq (by simpa using hqr)]
    exact htr
  · rw [if_neg hqr] at hr ⊢
    exact h q hq hr

theorem cycleLoop_ready_inv (depOrder : List (ActivityId × List ActivityId)) :
    ∀ (readies : List ActivityId) (states : ActStates)
      (out : List ActivityId) (fin : ActStates),
      (states.map Prod.fst).Nodup → InvRT states →
      envOk depOrder states readies = true →
      cycleLoop depOrder states readies = some (out, fin) →
      isAllReady fin = true ∧ InvRT fin := by
  intro readies
  induction readies with
  | nil =>
    intro states out fin _ hinv _ hrun
    simp only [cycleLoop] at hrun
    by_cases hall : isAllReady states = true
    · rw [if_pos hall] at hrun
      injection hrun with h
      injection h with h1 h2
      subst h2
      exact ⟨hall, hinv⟩
    · rw [if_neg hall] at hrun
      cases hrun
  | cons r rest ih =>
    intro states out fin hnd hinv henv hrun
    simp only [cycleLoop] at hrun
    simp only [envOk] at henv
    by_cases hall : isAllReady states = true
    · rw [if_pos hall] at hrun
      injection hrun with h
      injection h with h1 h2
      subst h2
      exact ⟨hall, hinv⟩
    · rw [if_neg hall] at hrun henv
      cases hlo : alookup (stepForeachReady depOrder states).2 r with
      | none =>
        rw [hlo] at hrun
        cases hrun
      | some st =>
        rw [hlo] at hrun henv
        rw [Bool.and_eq_true] at henv
        cases hrec :
            cycleLoop depOrder (setReady (stepForeachReady depOrder states).2 r) rest with
        | none =>
          rw [hrec] at hrun
          cases hrun
        | some q =>
          rw [hrec] at hrun
          injection hrun with h
          injection h with h1 h2
          subst h2
          have hkeys :
              ((setReady (stepForeachReady depOrder states).2 r).map Prod.fst).Nodup := by
            rw [keys_setReady, keys_stepForeachReady]
            exact hnd
          have hinv2 : InvRT (setReady (stepForeachReady depOrder states).2 r) := by
            refine inv_setReady ?_ hlo henv.1 (inv_stepForeachReady depOrder states hinv)
            rw [keys_stepForeachReady]
            exact hnd
          exact ih _ q.1 q.2 hkeys hinv2 henv.2 (by rw [hrec])

/-- Every value the scheduler's state map takes during one cycle, in order:
the state at each loop-condition check and the state after each
`step_foreach_ready` pass and each `wait_next_ready` mark, mirroring
`cycleLoop` (including the step pass run before a blocking receive, and
stopping where the `unwrap` would panic). -/
def cycleStates (depOrder : List (ActivityId × List ActivityId)) :
    ActStates → List ActivityId → List ActStates
  | states, [] =>
    if isAllReady states then [states]
    else [states, (stepForeachReady depOrder states).2]
  | states, r :: rest =>
    if isAllReady states then [states]
    else
      match alookup (stepForeachReady depOrder states).2 r with
      | none => [states, (stepForeachReady depOrder states).2]
      | some _ =>
        states :: (stepForeachReady depOrder states).2 ::
          cycleStates depOrder (setReady (stepForeachReady depOrder states).2 r) rest

theorem cycleStates_inv (depOrder : List (ActivityId × List ActivityId)) :
    ∀ (readies : List ActivityId) (states : ActStates),
      (states.map Prod.fst).Nodup → InvRT states →
      envOk depOrder states readies = true →
      ∀ s ∈ cycleStates depOrder states readies, InvRT s := by
  intro readies
  induction readies with
  | nil =>
    intro states _ hinv _ s hs
    simp only [cycleStates] at hs
    by_cases hall : isAllReady states = true
    · rw [if_pos hall] at hs
      rcases List.mem_singleton.mp hs with rfl
      exact hinv
    · rw [if_neg hall] at hs
      rcases List.mem_cons.mp hs with rfl | hs2
      · exact hinv
      · rcases List.mem_singleton.mp hs2 with rfl
        exact inv_stepForeachReady depOrder states hinv
  | cons r rest ih =>
    intro states hnd hinv henv s hs
    simp only [cycleStates] at hs
    simp only [envOk] at henv
    by_cases hall : isAllReady states = true
    · rw [if_pos hall] at hs
      rcases List.mem_singleton.mp hs with rfl
      exact hinv
    · rw [if_neg hall] at hs henv
      cases hlo : alookup (stepForeachReady depOrder states).2 r with
      | none =>
        rw [hlo] at henv
        cases henv
      | some st =>
        rw [hlo] at hs henv
        rw [Bool.and_eq_true] at henv
        rcases List.mem_cons.mp hs with rfl | hs2
        · exact hinv
        rcases List.mem_cons.mp hs2 with rfl | hs3
        · exact inv_stepForeachReady depOrder states hinv
        · refine ih (setReady (stepForeachReady depOrder states).2 r) ?_ ?_ henv.2 s hs3
          · rw [keys_setReady, keys_stepForeachReady]
            exact hnd
          · refine inv_setReady ?_ hlo henv.1 (inv_stepForeachReady depOrder states hinv)
            rw [keys_stepForeachReady]
            exact hnd

/-- C5: immediately after the per-cycle reset both flags are false for every
activity; ready implies triggered in every state the map passes through
during the cycle (the standing invariant, mid-cycle states included); and
when the inner loop exits (the moment `TaskChainEnd` is emitted), both
flags are true for every activity — given unique keys and the worker
contract that every received Ready names a known, already-triggered
activity. -/
theorem c5_state_invariant (depOrder : List (ActivityId × List ActivityId))
    (states0 : ActStates) (readies : List ActivityId) (out : List ActivityId)
    (fin : ActStates) (hnd : (states0.map Prod.fst).Nodup)
    (henv : envOk depOrder (resetStates states0) readies = true)
    (hrun : cycleLoop depOrder (resetStates states0) readies = some (out, fin)) :
    (∀ p ∈ resetStates states0, p.2.triggered = false ∧ p.2.ready = false) ∧
    (∀ s ∈ cycleStates depOrder (resetStates states0) readies,
      ∀ p ∈ s, p.2.ready = true → p.2.triggered = true) ∧
    (∀ p ∈ fin, p.2.triggered = true ∧ p.2.ready = true) := by
  have hkeys : ((resetStates states0).map Prod.fst).Nodup := by
    rw [keys_resetStates]
    exact hnd
  have hinv0 : InvRT (resetStates states0) := by
    intro p hp hr
    obtain ⟨q, _, rfl⟩ := List.mem_map.mp hp
    cases hr
  have hmain :=
    cycleLoop_ready_inv depOrder readies (resetStates states0) out fin hkeys hinv0 henv hrun
  refine ⟨?_, cycleStates_inv depOrder readies (resetStates states0) hkeys hinv0 henv,
    fun p hp => ?_⟩
  · intro p hp
    obtain ⟨q, _, rfl⟩ := List.mem_map.mp hp
    exact ⟨rfl, rfl⟩
  · have hr : p.2.ready = true := List.all_eq_true.mp hmain.1 p hp
    exact ⟨hmain.2 p hp hr, hr⟩

/-- C5 witness: a two-activity chain (2 depends on 1) run with readies 1, 2
ends with both flags true for activity 1. -/
theorem c5_witness :
    ((1 : Nat), ActState.mk true true).2.triggered = true ∧
    ((1 : Nat), ActState.mk true true).2.ready = true :=
  (c5_state_invariant [(1, []), (2, [1])]
    [(1, ActState.mk true true), (2, ActState.mk false true)] [1, 2] [1, 2]
    [(1, ActState.mk true true), (2, ActState.mk true true)]
    (by decide) (by decide) (by decide)).2.2
    (1, ActState.mk true true) (by decide)

/-- Mark a recorder ready in the `recorders_ready` map
(`recorders_ready.get_mut(&id).unwrap()`; the key set equals the recorder
set by construction in `ActivityConnector::new`). -/
def setRecorderFlag (flags : List (AgentId × Bool)) (id : AgentId) :
    List (AgentId × Bool) :=
  flags.map (fun p => if p.1 == id then (p.1, true) else p)

/-- The receive loop of `ActivityConnector::wait_recorders_ready`: drain
signals; a `RecorderReady` from a registered recorder sets its flag and the
function returns once all flags are set; anything else is logged and
dropped.  `incoming` is the intra-process ready channel's content; `recv`
on it cannot fail because the connector keeps its own sender clone alive,
so channel disconnection is impossible and an exhausted list models
blocking (`none`). -/
def recorderWaitLoop (recorders : List AgentId) :
    List (AgentId × Bool) → List Signal → Option (List (AgentId × Bool) × List Signal)
  | _, [] => none
  | flags, sig :: rest =>
    match sig with
    | .recorderReady id _ =>
      if recorders.contains id then
        if (setRecorderFlag flags id).all (fun p => p.2) then
          some (setRecorderFlag flags id, rest)
        else recorderWaitLoop recorders (setRecorderFlag flags id) rest
      else recorderWaitLoop recorders flags rest
    | _ => recorderWaitLoop recorders flags rest

/-- `ActivityConnector::wait_recorders_ready`: immediate return when no
recorder is registered, otherwise clear all flags and run the receive loop.
The result carries the final flag map and the unconsumed channel content. -/
def waitRecordersReady (recorders : List AgentId) (incoming : List Signal) :
    Option (List (AgentId × Bool) × List Signal) :=
  if recorders.isEmpty then some ([], incoming)
  else recorderWaitLoop recorders (recorders.map (fun r => (r, false))) incoming

theorem keys_setRecorderFlag (flags : List (AgentId × Bool)) (id : AgentId) :
    (setRecorderFlag flags id).map Prod.fst = flags.map Prod.fst := by
  unfold setRecorderFlag
  rw [List.map_map]
  apply List.map_congr_left
  intro p _
  show (if p.1 == id then (p.1, true) else p).1 = p.1
  split <;> rfl

theorem alookup_isSome_of_mem {α : Type} {l : List (Nat × α)} {k : Nat}
    (h : k ∈ l.map Prod.fst) : ∃ v, alookup l k = some v := by
  cases halo : alookup l k with
  | none => exact absurd h ((alookup_none_iff l k).mp halo)
  | some v => exact ⟨v, rfl⟩

theorem mem_setRecorderFlag {flags : List (AgentId × Bool)} {id k : AgentId}
    (h : ((k, true) : AgentId × Bool) ∈ setRecorderFlag flags id) :
    (k, true) ∈ flags ∨ k = id := by
  unfold setRecorderFlag at h
  obtain ⟨q, hq, hqe⟩ := List.mem_map.mp h
  by_cases hqi : q.1 == id
  · rw [if_pos hqi] at hqe
    injection hqe with h1 _
    right
    rw [← h1]
    simpa using hqi
  · rw [if_neg hqi] at hqe
    left
    exact hqe ▸ hq

theorem recorderWaitLoop_spec (recorders : List AgentId) :
    ∀ (incoming : List Signal) (flags flags2 : List (AgentId × Bool))
      (rest : List Signal),
      recorderWaitLoop recorders flags incoming = some (flags2, rest) →
      ∃ pre, incoming = pre ++ rest ∧
        flags2.map Prod.fst = flags.map Prod.fst ∧
        flags2.all (fun p => p.2) = true ∧
        ∀ k : AgentId, ((k, true) : AgentId × Bool) ∈ flags2 →
          (k, true) ∈ flags ∨ ∃ t, Signal.recorderReady k t ∈ pre := by
  intro incoming
  induction incoming with
  | nil =>
    intro flags flags2 rest h
    cases h
  | cons sig tail ih =>
    intro flags flags2 rest h
    have hskip : recorderWaitLoop recorders flags tail = some (flags2, rest) →
        ∃ pre, sig :: tail = pre ++ rest ∧
          flags2.map Prod.fst = flags.map Prod.fst ∧
          flags2.all (fun p => p.2) = true ∧
          ∀ k : AgentId, ((k, true) : AgentId × Bool) ∈ flags2 →
            (k, true) ∈ flags ∨ ∃ t, Signal.recorderReady k t ∈ pre := by
      intro h2
      obtain ⟨pre, hpre, hkeys, hall, hlk⟩ := ih flags flags2 rest h2
      exact ⟨sig :: pre, by rw [hpre]; rfl, hkeys, hall, fun k hk =>
        (hlk k hk).imp id (fun ht =>
          ⟨ht.choose, List.mem_cons_of_mem sig ht.choose_spec⟩)⟩
    cases sig with
    | recorderReady id t0 =>
      simp only [recorderWaitLoop] at h
      by_cases hc : recorders.contains id = true
      · rw [if_pos hc] at h
        by_cases hall : (setRecorderFlag flags id).all (fun p => p.2) = true
        · rw [if_pos hall] at h
          injection h with h
          injection h with h1 h2
          subst h1
          subst h2
          refine ⟨[Signal.recorderReady id t0], rfl,
            keys_setRecorderFlag flags id, hall, fun k hk => ?_⟩
          rcases mem_setRecorderFlag hk with hm | hkid
          · exact Or.inl hm
          · exact Or.inr ⟨t0, by rw [hkid]; exact List.mem_cons_self _ _⟩
        · rw [if_neg hall] at h
          obtain ⟨pre, hpre, hkeys, hall2, hlk⟩ :=
            ih (setRecorderFlag flags id) flags2 rest h
          refine ⟨Signal.recorderReady id t0 :: pre, by rw [hpre]; rfl,
            hkeys.trans (keys_setRecorderFlag flags id), hall2, fun k hk => ?_⟩
          rcases hlk k hk with hfl | ⟨t, ht⟩
          · rcases mem_setRecorderFlag hfl with hm | hkid
            · exact Or.inl hm
            · exact Or.inr ⟨t0, by rw [hkid]; exact List.mem_cons_self _ _⟩
          · exact Or.inr ⟨t, List.mem_cons_of_mem _ ht⟩
      · rw [if_neg hc] at h
        exact hskip h
    | helloReady id => exact hskip h
    | helloTrigger id => exact hskip h
    | startupSync a => exact hskip h
    | taskChainStart a => exact hskip h
    | taskChainEnd a => exact hskip h
    | startup a b => exact hskip h
    | shutdown a b => exact hskip h
    | step a b => exact hskip h
    | ready a b => exact hskip h

/-- C6: with no registered recorder the fence returns immediately without
consuming anything from the ready channel; with recorders registered, if
the fence returns then a `RecorderReady` from every registered recorder is
among the signals it consumed — the scheduler never reaches the next cycle
before that. -/
theorem c6_recorder_fence (recorders : List AgentId) (incoming : List Signal)
    (flags2 : List (AgentId × Bool)) (rest : List Signal) (r : AgentId)
    (hret : waitRecordersReady recorders incoming = some (flags2, rest))
    (hr : r ∈ recorders) :
    waitRecordersReady [] incoming = some ([], incoming) ∧
    ∃ t pre, incoming = pre ++ rest ∧ Signal.recorderReady r t ∈ pre := by
  refine ⟨rfl, ?_⟩
  have hne : recorders.isEmpty = false := by
    cases recorders with
    | nil => cases hr
    | cons a l => rfl
  unfold waitRecordersReady at hret
  rw [hne] at hret
  simp only [Bool.false_eq_true, if_false] at hret
  obtain ⟨pre, hpre, hkeys, hall, hlk⟩ :=
    recorderWaitLoop_spec recorders incoming _ flags2 rest hret
  have hkr : r ∈ flags2.map Prod.fst := by
    rw [hkeys, List.map_map]
    simpa using hr
  obtain ⟨q, hq, hqr⟩ := List.mem_map.mp hkr
  have hq2 : q.2 = true := by
    have := List.all_eq_true.mp hall q hq
    simpa using this
  have hqmem : ((r, true) : AgentId × Bool) ∈ flags2 := by
    have : q = (r, true) := by
      obtain ⟨qa, qb⟩ := q
      simp only at hqr hq2
      rw [hqr, hq2]
    exact this ▸ hq
  rcases hlk r hqmem with hinit | ⟨t, ht⟩
  · obtain ⟨x, _, hx⟩ := List.mem_map.mp hinit
    injection hx with _ hfalse
    cases hfalse
  · exact ⟨t, pre, hpre, ht⟩

/-- C6 witness: one recorder (id 7); a worker Ready is skipped, the
recorder's `RecorderReady` releases the fence, a later signal is left
unconsumed. -/
theorem c6_witness :
    waitRecordersReady [] [Signal.ready 1 0, Signal.recorderReady 7 5, Signal.step 0 0] =
      some ([], [Signal.ready 1 0, Signal.recorderReady 7 5, Signal.step 0 0]) ∧
    ∃ t pre,
      ([Signal.ready 1 0, Signal.recorderReady 7 5, Signal.step 0 0] : List Signal) =
        pre ++ [Signal.step 0 0] ∧ Signal.recorderReady 7 t ∈ pre :=
  c6_recorder_fence [7] [Signal.ready 1 0, Signal.recorderReady 7 5, Signal.step 0 0]
    [(7, true)] [Signal.step 0 0] 7 (by decide) (by decide)

/-- `Signal::activity_id` (via `wrapped_id`): only `Startup`, `Shutdown`,
`Step` and `Ready` wrap an `ActivityId`; the hello and recorder signals wrap
an `AgentId` and the rest wrap none. -/
def Signal.activityId : Signal → Option ActivityId
  | .startup id _ => some id
  | .shutdown id _ => some id
  | .step id _ => some id
  | .ready id _ => some id
  | _ => none

/-- Which lifecycle method a worker invoked. -/
inductive LifecycleCall where
  | startup (id : ActivityId)
  | step (id : ActivityId)
  | shutdown (id : ActivityId)
  deriving DecidableEq, Repr

/-- One iteration of the worker loop in `feo/src/worker_pool/worker.rs`
(`run`): extract the activity id (`expect` panics when there is none), look
the activity up among the owned ones (panic when unknown), invoke the
matching lifecycle method for `Startup`/`Step`/`Shutdown` (any other signal
panics), then send `Ready(id, timestamp())`.  `ts` is the timestamp taken
after the invocation; `none` models a panic — no lifecycle call completes
and no Ready is emitted. -/
def workerHandleSignal (owned : List ActivityId) (ts : Nat) (sig : Signal) :
    Option (LifecycleCall × Signal) :=
  match sig.activityId with
  | none => none
  | some id =>
    if owned.contains id then
      match sig with
      | .startup _ _ => some (.startup id, .ready id ts)
      | .step _ _ => some (.step id, .ready id ts)
      | .shutdown _ _ => some (.shutdown id, .ready id ts)
      | _ => none
    else none

/-- Whether a signal is one of the three lifecycle triggers a worker accepts. -/
def Signal.isLifecycleTrigger : Signal → Bool
  | .startup _ _ => true
  | .step _ _ => true
  | .shutdown _ _ => true
  | _ => false

/-- C8: a `Startup`, `Step` or `Shutdown` for an owned activity id makes the
worker invoke exactly the matching lifecycle method and then emit exactly
one `Ready(id, timestamp())`; any other signal, or an id the worker does
not own, panics the worker and emits no Ready. -/
theorem c8_worker_protocol (owned : List ActivityId) (ts : Nat) (sig : Signal)
    (id : ActivityId) (t : Nat) :
    (owned.contains id = true →
      workerHandleSignal owned ts (.startup id t) =
        some (.startup id, .ready id ts) ∧
      workerHandleSignal owned ts (.step id t) = some (.step id, .ready id ts) ∧
      workerHandleSignal owned ts (.shutdown id t) =
        some (.shutdown id, .ready id ts)) ∧
    (sig.isLifecycleTrigger = false → workerHandleSignal owned ts sig = none) ∧
    (sig.activityId = some id → owned.contains id = false →
      workerHandleSignal owned ts sig = none) := by
  refine ⟨fun h => ?_, fun h => ?_, fun h1 h2 => ?_⟩
  · have hm : id ∈ owned := by simpa using h
    exact ⟨by simp [workerHandleSignal, Signal.activityId, hm],
      by simp [workerHandleSignal, Signal.activityId, hm],
      by simp [workerHandleSignal, Signal.activityId, hm]⟩
  · cases sig <;>
      simp_all [workerHandleSignal, Signal.activityId, Signal.isLifecycleTrigger]
  · cases sig <;> simp_all [workerHandleSignal, Signal.activityId]

/-- C8 witness: worker owning activity 4: a `Step(4)` runs `step` and emits
`Ready(4, ts)`; a `TaskChainEnd` and a `Step(9)` panic without a Ready. -/
theorem c8_witness :
    workerHandleSignal [4] 7 (Signal.step 4 1) =
      some (LifecycleCall.step 4, Signal.ready 4 7) ∧
    workerHandleSignal [4] 7 (Signal.taskChainEnd 0) = none ∧
    workerHandleSignal [4] 7 (Signal.step 9 1) = none :=
  ⟨((c8_worker_protocol [4] 7 (Signal.taskChainEnd 0) 4 1).1 (by decide)).2.1,
   (c8_worker_protocol [4] 7 (Signal.taskChainEnd 0) 4 1).2.1 (by decide),
   (c8_worker_protocol [4] 7 (Signal.step 9 1) 9 1).2.2 (by decide) (by decide)⟩

/-- `ActivityConnector::wait_next_ready`: loop on the intra-process channel;
a `Ready((id, _))` is forwarded to the recorders and its id returned; any
other signal is logged at error and dropped, and the loop continues. -/
def connectorWaitNextReady : List Signal → Option (ActivityId × List Signal)
  | [] => none
  | .ready id _ :: rest => some (id, rest)
  | _ :: rest => connectorWaitNextReady rest

/-- Outcome of one `Scheduler::wait_next_ready` call. -/
inductive WaitStep where
  | blocked
  | panicked
  | got (states : ActStates) (rest : List Signal)
  deriving DecidableEq, Repr

/-- `Scheduler::wait_next_ready`: obtain the next ready id from the
connector (blocking when the channel has nothing more), then
`activity_states.get_mut(&act_id).unwrap().ready = true` — the `unwrap`
aborts the process when the id has no state entry. -/
def schedulerWaitNextReady (states : ActStates) (incoming : List Signal) : WaitStep :=
  match connectorWaitNextReady incoming with
  | none => .blocked
  | some (id, rest) =>
    match alookup states id with
    | none => .panicked
    | some _ => .got (setReady states id) rest

/-- Whether a signal is a `Ready`. -/
def Signal.isReadySignal : Signal → Bool
  | .ready _ _ => true
  | _ => false

/-- C9 counterexample: with a single known activity 1, receiving
`Ready(2, 0)` — a Ready whose activity id is unknown — makes the scheduler
panic on the state-map `unwrap` instead of dropping the signal and
continuing to wait (which is what happens on an empty channel). -/
theorem c9_unknown_ready_panics :
    schedulerWaitNextReady [(1, ActState.mk true false)] [Signal.ready 2 0] =
      .panicked ∧
    schedulerWaitNextReady [(1, ActState.mk true false)] [] = .blocked := by
  decide

/-- C9 amended: while waiting mid-cycle, any non-Ready signal is logged and
dropped, leaving the state map unchanged and the wait continuing exactly as
if the signal had never arrived; but a Ready whose activity id has no state
entry aborts the scheduler (unwrap panic) rather than being dropped. -/
theorem c9_unexpected_signal_handling (states : ActStates)
    (incoming : List Signal) (sig : Signal) (id : ActivityId) (t : Nat) :
    (sig.isReadySignal = false →
      schedulerWaitNextReady states (sig :: incoming) =
        schedulerWaitNextReady states incoming) ∧
    (alookup states id = none →
      schedulerWaitNextReady states (Signal.ready id t :: incoming) =
        .panicked) := by
  refine ⟨fun h => ?_, fun h => ?_⟩
  · have hc : connectorWaitNextReady (sig :: incoming) =
        connectorWaitNextReady incoming := by
      cases sig <;> first
        | rfl
        | simp [Signal.isReadySignal] at h
    simp only [schedulerWaitNextReady, hc]
  · simp only [schedulerWaitNextReady, connectorWaitNextReady, h]

/-- C9 witness: a `TaskChainStart` on the channel is dropped (same outcome
as an empty channel); a Ready for unknown id 9 panics. -/
theorem c9_witness :
    schedulerWaitNextReady [(3, ActState.mk false false)]
        [Signal.taskChainStart 0] =
      schedulerWaitNextReady [(3, ActState.mk false false)] [] ∧
    schedulerWaitNextReady [(3, ActState.mk false false)] [Signal.ready 9 0] =
      .panicked :=
  ⟨(c9_unexpected_signal_handling [(3, ActState.mk false false)] []
      (Signal.taskChainStart 0) 9 0).1 (by decide),
   (c9_unexpected_signal_handling [(3, ActState.mk false false)] []
      (Signal.taskChainStart 0) 9 0).2 (by decide)⟩

end Feo
